import Mathlib

/-!
Verification development for the qframe backend toolkit.

Shallow embedding of the core mechanisms of the repository:
  * the growable request-body accumulator (`bodyAsBuffer_v0` from the
    `Buffer.allocUnsafe`/`buffer.set` variant, and `bodyAsBuffer` from the
    `Buffer.concat` variant with a size limit),
  * the framed pass-through pipe `DBPassThrough` (`ptWrite`, `ptEnd`),
  * the migration runner `migrate` with its ledger (`migration` table),
    audit log (`migration_log` table) and transaction semantics.

Bytes are modelled as `Nat`, byte buffers as `List Nat`.  `Buffer.allocUnsafe`
returns memory with unspecified contents; the model instantiates that
unspecified content with zeros.
-/

/-- Doubling loop computing the smallest power of two that is `≥ n`
(`n` doublings of fuel are always enough). -/
def pow2geFuel : Nat → Nat → Nat → Nat
  | 0, _, p => p
  | fuel + 1, n, p => if n ≤ p then p else pow2geFuel fuel n (2 * p)

/-- `1 << Math.ceil(Math.log2 n)`: the smallest power of two that is `≥ n`
(for `n ≥ 1`; the source only evaluates it for `n > 4096`). -/
def pow2ge (n : Nat) : Nat := pow2geFuel n n 1

/-- `dst.set(src, off)`: overwrite `dst` with the bytes of `src` starting at
offset `off` (Node `TypedArray.prototype.set`). -/
def writeAt (dst src : List Nat) (off : Nat) : List Nat :=
  dst.take off ++ src ++ dst.drop (off + src.length)

/-- The mutable state of the `allocUnsafe`-based `bodyAsBuffer`
(src/unnamed/part_000 lines 119-130): the running byte count `index` and the
backing buffer. -/
structure AccState where
  index : Nat
  buffer : List Nat
deriving Repr, DecidableEq

/-- `var index = 0, buffer = Buffer.allocUnsafe(4096)` (unspecified contents
modelled as zeros). -/
def accInit : AccState := ⟨0, List.replicate 4096 0⟩

/-- One `data` callback of the `allocUnsafe`-based `bodyAsBuffer`:
`index += b.byteLength`, grow the buffer when `index` exceeds its capacity
(`buffer = Buffer.allocUnsafe(1 << Math.ceil(Math.log2(index))); buffer.set(buffer)`
— note the source copies the freshly allocated buffer into itself), then
`buffer.set(b, index - b.byteLength)`. -/
def accData (st : AccState) (b : List Nat) : AccState :=
  let index := st.index + b.length
  let buffer :=
    if st.buffer.length < index then
      let nb := List.replicate (pow2ge index) 0
      writeAt nb nb 0
    else st.buffer
  ⟨index, writeAt buffer b (index - b.length)⟩

/-- The `data` loop of the `allocUnsafe`-based `bodyAsBuffer`: on each chunk
the running total is bumped and checked against `maxLen`
(`if (index > maxLen) reject(Error('413: Body too large'))`); a rejected
promise stays rejected, so the first rejection is the outcome. -/
def accRun (maxLen : Nat) : List (List Nat) → AccState → Except String AccState
  | [], st => .ok st
  | b :: rest, st =>
    if maxLen < st.index + b.length then .error "413: Body too large"
    else accRun maxLen rest (accData st b)

/-- `bodyAsBuffer` of src/unnamed/part_000 lines 119-130 (same growth code as
src/unnamed/part_001 lines 115-126): accumulate the chunks into one buffer and
resolve `buffer.slice(0, index)` at stream end. -/
def bodyAsBuffer_v0 (maxLen : Nat) (chunks : List (List Nat)) : Except String (List Nat) :=
  (accRun maxLen chunks accInit).map (fun st => st.buffer.take st.index)

/-- The `data` loop of the `Buffer.concat`-based `bodyAsBuffer`
(src/unnamed/part_001 lines 562-570): collect the chunks, rejecting with
`413: Body too large` as soon as the running total exceeds `maxLen`. -/
def bodyCollect (maxLen total : Nat) : List (List Nat) → Except String (List (List Nat))
  | [] => .ok []
  | b :: rest =>
    if maxLen < total + b.length then .error "413: Body too large"
    else (bodyCollect maxLen (total + b.length) rest).map (fun bs => b :: bs)

/-- `bodyAsBuffer` of src/unnamed/part_001 lines 562-570: at stream end the
collected chunks are concatenated (`Buffer.concat(buffers)`); if the limit was
exceeded the promise was already rejected and that rejection is the outcome. -/
def bodyAsBuffer (maxLen : Nat) (chunks : List (List Nat)) : Except String (List Nat) :=
  (bodyCollect maxLen 0 chunks).map List.flatten

/-- The mutable fields of a `DBPassThrough` instance
(src/unnamed/part_001 lines 522-550).  The cached `rowParser` frame is
assigned from outside the class; it is passed separately to the operations. -/
structure PTState where
  needToWriteRowParser : Bool
  needToWriteHeader : Bool
  buffer : List (List Nat)
  bufferLength : Nat
deriving Repr, DecidableEq

/-- What the destination sink (`this.dst`) observes: `writeHead` calls,
body writes, and the final `end` payload. -/
inductive SinkEvent
  | writeHead
  | writeBody (bytes : List Nat)
  | endBody (bytes : List Nat)
deriving Repr, DecidableEq

/-- The `DBPassThrough` constructor. -/
def PTState.init : PTState := ⟨true, true, [], 0⟩

/-- `DBPassThrough.prototype.write(buf)`: on the first call push the cached
`rowParser.buf` leading frame (if any) without counting its bytes; push `buf`
and add its length to `bufferLength`; once `bufferLength >= 65536`, declare the
header if still needed, write the concatenation of the queued chunks to the
sink in one operation, and clear the queue and the counter. -/
def ptWrite (rowParser : Option (List Nat)) (st : PTState) (buf : List Nat) :
    PTState × List SinkEvent :=
  let st1 : PTState :=
    if st.needToWriteRowParser then
      { st with
        buffer := st.buffer ++ rowParser.toList,
        needToWriteRowParser := false }
    else st
  let st2 : PTState :=
    { st1 with buffer := st1.buffer ++ [buf], bufferLength := st1.bufferLength + buf.length }
  if 65536 ≤ st2.bufferLength then
    let hdr : List SinkEvent := if st2.needToWriteHeader then [.writeHead] else []
    (⟨st2.needToWriteRowParser, false, [], 0⟩, hdr ++ [.writeBody st2.buffer.flatten])
  else (st2, [])

/-- `DBPassThrough.prototype.end()`: declare the header if still needed, then
`dst.end` the concatenation of whatever is still queued (the queue is emptied
by `splice(0)`; the counter is not touched). -/
def ptEnd (st : PTState) : PTState × List SinkEvent :=
  ({ st with buffer := [] },
    (if st.needToWriteHeader then [SinkEvent.writeHead] else []) ++
      [SinkEvent.endBody st.buffer.flatten])

/-- A sequence of `write` calls, collecting the sink events in order. -/
def ptWrites (rowParser : Option (List Nat)) :
    PTState → List (List Nat) → PTState × List SinkEvent
  | st, [] => (st, [])
  | st, b :: rest =>
    let w := ptWrite rowParser st b
    let r := ptWrites rowParser w.1 rest
    (r.1, w.2 ++ r.2)

/-- A whole pipe run: construct, `write` every chunk, then `end()`. -/
def ptRun (rowParser : Option (List Nat)) (chunks : List (List Nat)) : List SinkEvent :=
  let w := ptWrites rowParser PTState.init chunks
  w.2 ++ (ptEnd w.1).2

/-- Number of `writeHead` calls the sink observed. -/
def countHead (evs : List SinkEvent) : Nat :=
  evs.countP (fun e => match e with | .writeHead => true | _ => false)

/-- The byte stream the sink observed (header declarations carry no bytes). -/
def sinkBytes : List SinkEvent → List Nat
  | [] => []
  | .writeHead :: r => sinkBytes r
  | .writeBody b :: r => b ++ sinkBytes r
  | .endBody b :: r => b ++ sinkBytes r

/-- The queue contents right after the push phase of one `write` call:
the previous queue, the leading frame on the first call, then the chunk. -/
def pushedQueue (rowParser : Option (List Nat)) (st : PTState) (buf : List Nat) :
    List (List Nat) :=
  (if st.needToWriteRowParser then st.buffer ++ rowParser.toList else st.buffer) ++ [buf]

/-- The value of `bufferLength` as a function of the chunk lengths alone:
add each chunk's length, resetting to zero whenever the flush threshold is
reached. -/
def counterOracle (lens : List Nat) : Nat :=
  lens.foldl (fun acc len => if 65536 ≤ acc + len then 0 else acc + len) 0

/-- One migration step: `{name, up, down}` (`up`/`down` are SQL text). -/
structure MStep where
  name : String
  up : String
  down : String
deriving Repr, DecidableEq

/-- One row of the `migration` ledger table:
`(db_name TEXT PRIMARY KEY, latest_index INT DEFAULT -1, latest_name TEXT)`. -/
structure LedgerRow where
  db_name : String
  latest_index : Int
  latest_name : Option String
deriving Repr, DecidableEq

/-- One row of the append-only `migration_log` audit table (the serial id and
timestamp are implicit in the list position). -/
structure AuditRow where
  db_name : String
  name : String
  direction : String
  query : String
  index : Int
deriving Repr, DecidableEq

/-- The durable database state: existence flags for the two bookkeeping
tables, their contents, and the rest of the schema abstracted as `σ`
(the tables and extensions the up/down SQL of the steps manipulates). -/
structure DBState (σ : Type) where
  migrationTable : Bool
  migrationLogTable : Bool
  ledger : List LedgerRow
  audit : List AuditRow
  schema : σ
deriving DecidableEq

/-- Observable actions of one migration run: executions of step changes and
audit-log inserts, in issue order. -/
inductive MEvent
  | exec (direction : String) (index : Int) (query : String)
  | auditIns (row : AuditRow)
deriving Repr, DecidableEq

/-- A database connection: the committed (durable) state, the tentative state
of an open transaction (`none` when no transaction is open; `BEGIN` copies the
durable state, `COMMIT` promotes the tentative one, `ROLLBACK` discards it),
and the log of observable actions issued so far. -/
structure Conn (σ : Type) where
  durable : DBState σ
  txn : Option (DBState σ)
  trace : List MEvent
deriving DecidableEq

/-- The state a query reads and writes: the open transaction when there is
one, the durable state otherwise. -/
def curState (c : Conn σ) : DBState σ := c.txn.getD c.durable

/-- Store the state a query produced: into the open transaction when there is
one, else directly into the durable state. -/
def setCur (c : Conn σ) (s : DBState σ) : Conn σ :=
  match c.txn with
  | some _ => { c with txn := some s }
  | none => { c with durable := s }

/-- Append observable actions to the connection's log (executions are
observable even if the transaction is later rolled back). -/
def addEvents (c : Conn σ) (evs : List MEvent) : Conn σ :=
  { c with trace := c.trace ++ evs }

/-- A computation against the connection: threads a query counter (used for
fault injection) and the connection, and can fail.  On failure the connection
is returned as it was at the moment of failure. -/
def QM (σ α : Type) : Type := Nat → Conn σ → Except String α × Nat × Conn σ

instance : Monad (QM σ) where
  pure a := fun n c => (.ok a, n, c)
  bind m f := fun n c =>
    match m n c with
    | (.ok a, n', c') => f a n' c'
    | (.error e, n', c') => (.error e, n', c')

section MigrationRunner

variable {σ : Type}

-- Fault injection for `client.query`: `fault n = some e` makes the `n`-th
-- query issued by the run fail with error `e`.
variable (fault : Nat → Option String)

-- The effect of executing a step's SQL text on the abstract schema state
-- (the engine treats the up/down changes as opaque SQL).
variable (runSQL : String → σ → σ)

/-- One `await client.query(...)` whose own semantics `g` reads the current
state and yields a result, an updated state and observable actions; the
injected fault, if any, makes it raise instead. -/
def qquery (g : DBState σ → Except String (α × DBState σ × List MEvent)) : QM σ α :=
  fun n c =>
    match fault n with
    | some e => (.error e, n + 1, c)
    | none =>
      match g (curState c) with
      | .error e => (.error e, n + 1, c)
      | .ok (a, s, evs) => (.ok a, n + 1, addEvents (setCur c s) evs)

/-- `await client.query('BEGIN')`. -/
def qBegin : QM σ Unit :=
  fun n c =>
    match fault n with
    | some e => (.error e, n + 1, c)
    | none => (.ok (), n + 1, { c with txn := some c.durable })

/-- `await client.query('COMMIT')`. -/
def qCommit : QM σ Unit :=
  fun n c =>
    match fault n with
    | some e => (.error e, n + 1, c)
    | none => (.ok (), n + 1, { c with durable := curState c, txn := none })

/-- `await client.query('ROLLBACK')` in the catch handler: discard the open
transaction. -/
def rollbackConn (c : Conn σ) : Conn σ := { c with txn := none }

/-- `CREATE TABLE IF NOT EXISTS migration (...)`. -/
def qCreateMigrationTable : QM σ Unit :=
  qquery fault (fun s => .ok ((), { s with migrationTable := true }, []))

/-- `CREATE TABLE IF NOT EXISTS migration_log (...)`. -/
def qCreateMigrationLog : QM σ Unit :=
  qquery fault (fun s => .ok ((), { s with migrationLogTable := true }, []))

/-- `SELECT * FROM migration WHERE db_name = $1`. -/
def qSelectStatus (db : String) : QM σ (Option LedgerRow) :=
  qquery fault (fun s => .ok (s.ledger.find? (fun r => r.db_name == db), s, []))

/-- `INSERT INTO migration (db_name) VALUES ($1) RETURNING *`
(column defaults: `latest_index = -1`, `latest_name` NULL). -/
def qInsertStatus (db : String) : QM σ LedgerRow :=
  qquery fault (fun s =>
    let r : LedgerRow := ⟨db, -1, none⟩
    .ok (r, { s with ledger := s.ledger ++ [r] }, []))

/-- `migrations[i]` in a loop body: a JS array read; an out-of-range or
negative index yields `undefined` and the subsequent `.up`/`.down` access
raises a `TypeError` before any query is issued. -/
def getStep (migs : List MStep) (i : Int) : Except String MStep :=
  if h : 0 ≤ i ∧ i.toNat < migs.length then .ok (migs.get ⟨i.toNat, h.2⟩)
  else .error "TypeError: Cannot read property of undefined"

/-- A raise that is not a query (`migrations[i].down` on a missing step):
the connection is left as it is and no query is counted. -/
def qRaise (e : String) : QM σ α := fun n c => (.error e, n, c)

/-- `await client.query(migrations[i].down)` followed by the
`INSERT INTO migration_log (...'down'...)` audit write, for each `i` of the
backward walk (`for (let i = latest; i > target; i--)`). -/
def runDownSteps (db : String) (migs : List MStep) : List Int → QM σ Unit
  | [] => pure ()
  | i :: rest =>
    match getStep migs i with
    | .error e => qRaise e
    | .ok m => do
      qquery fault (fun s => .ok ((), { s with schema := runSQL m.down s.schema },
        [MEvent.exec "down" i m.down]))
      qquery fault (fun s =>
        let r : AuditRow := ⟨db, m.name, "down", m.down, i⟩
        .ok ((), { s with audit := s.audit ++ [r] }, [MEvent.auditIns r]))
      runDownSteps db migs rest

/-- `await client.query(migrations[i].up)` followed by the
`INSERT INTO migration_log (...'up'...)` audit write, for each `i` of the
forward walk (`for (let i = latest+1; i <= target; i++)`). -/
def runUpSteps (db : String) (migs : List MStep) : List Int → QM σ Unit
  | [] => pure ()
  | i :: rest =>
    match getStep migs i with
    | .error e => qRaise e
    | .ok m => do
      qquery fault (fun s => .ok ((), { s with schema := runSQL m.up s.schema },
        [MEvent.exec "up" i m.up]))
      qquery fault (fun s =>
        let r : AuditRow := ⟨db, m.name, "up", m.up, i⟩
        .ok ((), { s with audit := s.audit ++ [r] }, [MEvent.auditIns r]))
      runUpSteps db migs rest

end MigrationRunner

/-- The migration target as supplied in configuration: absent, a step name or
numeric index (a string only ever `===`-matches a step name). -/
inductive MTarget
  | undef
  | str (s : String)
  | num (n : Int)
deriving Repr, DecidableEq

/-- The resolved target: a numeric index, or — when a non-empty string matched
no step name — the string itself, passed through untouched. -/
inductive Resolved
  | idx (i : Int)
  | str (s : String)
deriving Repr, DecidableEq

/-- `migrations.findIndex(m => m.name === migrationTarget)`; `===` is
type-strict, so only a string target can match a step name. -/
def findMigrationIndex (migs : List MStep) (t : MTarget) : Option Nat :=
  match t with
  | .str s => migs.findIdx? (fun m => m.name == s)
  | _ => none

/-- Target resolution of src/unnamed/part_001 lines 472-473:
`targetMigrationIndex = migrationTarget === 0 ? migrationTarget :
(migrationTarget || migrations.length-1)` when the name lookup missed
(`undefined` and `''` are falsy; any other string stays as it is). -/
def resolveTargetIndex (migs : List MStep) (t : MTarget) : Resolved :=
  match findMigrationIndex migs t with
  | some i => .idx i
  | none =>
    match t with
    | .num n => if n = 0 then .idx 0 else .idx n
    | .undef => .idx ((migs.length : Int) - 1)
    | .str s => if s = "" then .idx ((migs.length : Int) - 1) else .str s

/-- Target resolution of src/unnamed/part_000 lines 50-51 (same in the first
copy in part_001): `targetMigrationIndex = migrationTarget ||
migrations.length-1` when the name lookup missed — the number `0` is falsy,
so it falls back to `migrations.length-1`. -/
def resolveTargetIndex_v0 (migs : List MStep) (t : MTarget) : Resolved :=
  match findMigrationIndex migs t with
  | some i => .idx i
  | none =>
    match t with
    | .num n => if n = 0 then .idx ((migs.length : Int) - 1) else .idx n
    | .undef => .idx ((migs.length : Int) - 1)
    | .str s => if s = "" then .idx ((migs.length : Int) - 1) else .str s

/-- The indices of the backward walk `for (let i = c; i > t; i--)`, in issue
order; empty when the resolved target is an unmatched string (comparing a
number with a non-numeric string is false in JS). -/
def downIdxs (c : Int) : Resolved → List Int
  | .idx t => (List.range (c - t).toNat).map (fun (k : Nat) => c - (k : Int))
  | .str _ => []

/-- The indices of the forward walk `for (let i = c+1; i <= t; i++)`, in issue
order; empty when the resolved target is an unmatched string. -/
def upIdxs (c : Int) : Resolved → List Int
  | .idx t => (List.range (t - c).toNat).map (fun (k : Nat) => c + 1 + (k : Int))
  | .str _ => []

section MigrationRunner2

variable {σ : Type} (fault : Nat → Option String) (runSQL : String → σ → σ)

/-- `UPDATE migration SET latest_index = $1, latest_name = $2` — the source
has no `WHERE` clause, so every ledger row is updated.  `latest_name` is
`(migrations[target] || {}).name` (NULL when out of range).  An unmatched
string target does not cast to `INT` and makes the query itself raise. -/
def qUpdateLedger (migs : List MStep) (tRes : Resolved) : QM σ Unit :=
  qquery fault (fun s =>
    match tRes with
    | .idx t =>
      let nm := (getStep migs t).toOption.map (fun m => m.name)
      let rows := s.ledger.map (fun r => { r with latest_index := t, latest_name := nm })
      .ok ((), { s with ledger := rows }, [])
    | .str _ => .error "22P02: invalid input syntax for type integer")

/-- The body of the `try` block of `migrate` between `BEGIN` and `COMMIT`
(src/unnamed/part_000 lines 56-70): ensure the bookkeeping tables, read or
create the ledger row, walk down then up, and update the ledger. -/
def migrateMid (migs : List MStep) (db : String) (tRes : Resolved) : QM σ Unit := do
  qCreateMigrationTable fault
  qCreateMigrationLog fault
  let status ← qSelectStatus fault db
  let row ← match status with
    | some r => pure r
    | none => qInsertStatus fault db
  runDownSteps fault runSQL db migs (downIdxs row.latest_index tRes)
  runUpSteps fault runSQL db migs (upIdxs row.latest_index tRes)
  qUpdateLedger fault migs tRes

/-- The whole `try` block of `migrate`: `BEGIN`, the body, `COMMIT`. -/
def migrateBody (migs : List MStep) (db : String) (tRes : Resolved) : QM σ Unit := do
  qBegin fault
  migrateMid fault runSQL migs db tRes
  qCommit fault

/-- `migrate` from an already-resolved target: run the transaction; on any
raise, `ROLLBACK` and re-throw the caught error (the `catch` clause,
src/unnamed/part_000 lines 73-76). -/
def migrateResolved (migs : List MStep) (db : String) (tRes : Resolved)
    (n₀ : Nat) (c : Conn σ) : Except String Unit × Conn σ :=
  match migrateBody fault runSQL migs db tRes n₀ c with
  | (.ok _, _, c') => (.ok (), c')
  | (.error e, _, c') => (.error e, rollbackConn c')

/-- `async function migrate(migrations, migrationTarget)`
(src/unnamed/part_001 lines 471-498): resolve the target, then run the
transaction with rollback on failure. -/
def migrate (migs : List MStep) (db : String) (target : MTarget)
    (n₀ : Nat) (c : Conn σ) : Except String Unit × Conn σ :=
  migrateResolved fault runSQL migs db (resolveTargetIndex migs target) n₀ c

end MigrationRunner2

/-- The observable actions the claim expects from the backward walk: for each
index, the execution of that step's `down` change immediately followed by its
`down` audit record. -/
def downTrace (db : String) (migs : List MStep) : List Int → List MEvent
  | [] => []
  | i :: rest =>
    match getStep migs i with
    | .error _ => []
    | .ok m =>
      MEvent.exec "down" i m.down :: MEvent.auditIns ⟨db, m.name, "down", m.down, i⟩ ::
        downTrace db migs rest

/-- The observable actions the claim expects from the forward walk: for each
index, the execution of that step's `up` change immediately followed by its
`up` audit record. -/
def upTrace (db : String) (migs : List MStep) : List Int → List MEvent
  | [] => []
  | i :: rest =>
    match getStep migs i with
    | .error _ => []
    | .ok m =>
      MEvent.exec "up" i m.up :: MEvent.auditIns ⟨db, m.name, "up", m.up, i⟩ ::
        upTrace db migs rest

/-- No injected faults: every query behaves as its SQL semantics dictates. -/
def noFault : Nat → Option String := fun _ => none

/-- Durable-state preservation: a computation whose queries run inside an open
transaction leaves the committed state untouched and the transaction open. -/
def PreservesDurable (m : QM σ α) : Prop :=
  ∀ n c, c.txn.isSome = true →
    (m n c).2.2.durable = c.durable ∧ (m n c).2.2.txn.isSome = true

/-- Two-step migration sequence used for concrete runs. -/
def migsAB : List MStep := [⟨"a", "ua", "da"⟩, ⟨"b", "ub", "db"⟩]

/-- A connection whose ledger tracks two targets: `dbA` at position 0 and
`dbB` at position 5. -/
def connTwoTargets : Conn Unit :=
  ⟨⟨true, true, [⟨"dbA", 0, some "a"⟩, ⟨"dbB", 5, some "z"⟩], [], ()⟩, none, []⟩

/-- A connection whose ledger tracks `d` at the initial position `-1`. -/
def connFresh : Conn Unit :=
  ⟨⟨true, true, [⟨"d", -1, none⟩], [], ()⟩, none, []⟩

/-- Fault injection that makes the 7th query of a run (the ledger `UPDATE` of
a one-step forward migration) fail. -/
def fault6 : Nat → Option String := fun n => if n = 6 then some "boom" else none

/-- The row transformation of the ledger `UPDATE`: set `latest_index` and
`latest_name` on a row. -/
def ledgerSet (migs : List MStep) (t : Int) (rows : List LedgerRow) : List LedgerRow :=
  rows.map (fun r =>
    { r with
      latest_index := t,
      latest_name := (getStep migs t).toOption.map (fun m => m.name) })

theorem sinkBytes_append (a b : List SinkEvent) :
    sinkBytes (a ++ b) = sinkBytes a ++ sinkBytes b := by
  induction a with
  | nil => rfl
  | cons e r ih => cases e <;> simp [sinkBytes, ih]

theorem countHead_append (a b : List SinkEvent) :
    countHead (a ++ b) = countHead a + countHead b := by
  simp [countHead, List.countP_append]

theorem ptWrite_bufferLength (ps : Option (List Nat)) (st : PTState) (buf : List Nat) :
    (ptWrite ps st buf).1.bufferLength =
      if 65536 ≤ st.bufferLength + buf.length then 0 else st.bufferLength + buf.length := by
  unfold ptWrite
  by_cases h : st.needToWriteRowParser <;> simp [h] <;> split <;> simp_all

theorem ptWrite_needHeader (ps : Option (List Nat)) (st : PTState) (buf : List Nat) :
    (ptWrite ps st buf).1.needToWriteHeader =
      if 65536 ≤ st.bufferLength + buf.length then false else st.needToWriteHeader := by
  unfold ptWrite
  by_cases h : st.needToWriteRowParser <;> simp [h] <;> split <;> simp_all

theorem ptWrite_countHead (ps : Option (List Nat)) (st : PTState) (buf : List Nat) :
    countHead (ptWrite ps st buf).2 +
        (if (ptWrite ps st buf).1.needToWriteHeader then 1 else 0) =
      if st.needToWriteHeader then 1 else 0 := by
  by_cases h : st.needToWriteRowParser <;>
    by_cases ht : 65536 ≤ st.bufferLength + buf.length <;>
      by_cases h2 : st.needToWriteHeader <;>
        simp [ptWrite, countHead, h, ht, h2]

theorem ptWrites_countHead (ps : Option (List Nat)) :
    ∀ (chunks : List (List Nat)) (st : PTState),
      countHead (ptWrites ps st chunks).2 +
          (if (ptWrites ps st chunks).1.needToWriteHeader then 1 else 0) =
        if st.needToWriteHeader then 1 else 0 := by
  intro chunks
  induction chunks with
  | nil => intro st; simp [ptWrites, countHead]
  | cons b rest ih =>
    intro st
    have hw := ptWrite_countHead ps st b
    have hr := ih (ptWrite ps st b).1
    simp only [ptWrites, countHead_append]
    omega

/-- C7: for every sequence of `write` calls on the pass-through pipe followed
by a single `end` call, the sink's header/status declaration (`writeHead`) is
invoked exactly once, regardless of how many writes occur, how many flushes
happen, or whether the flush threshold was ever crossed. -/
theorem ptRun_writeHead_once (ps : Option (List Nat)) (chunks : List (List Nat)) :
    countHead (ptRun ps chunks) = 1 := by
  have hw := ptWrites_countHead ps chunks PTState.init
  have hinit : (if PTState.init.needToWriteHeader then 1 else 0) = 1 := rfl
  rw [hinit] at hw
  have he : countHead (ptEnd (ptWrites ps PTState.init chunks).1).2 =
      if (ptWrites ps PTState.init chunks).1.needToWriteHeader then 1 else 0 := by
    by_cases h : (ptWrites ps PTState.init chunks).1.needToWriteHeader <;>
      simp [ptEnd, countHead, h]
  simp only [ptRun, countHead_append, he]
  omega

theorem ptWrite_sinkBytes (ps : Option (List Nat)) (st : PTState) (buf : List Nat) :
    sinkBytes (ptWrite ps st buf).2 ++ (ptWrite ps st buf).1.buffer.flatten =
      st.buffer.flatten ++ (if st.needToWriteRowParser then ps.getD [] else []) ++ buf := by
  have hfl : ps.toList.flatten = ps.getD [] := by cases ps <;> simp
  by_cases h : st.needToWriteRowParser <;>
    by_cases ht : 65536 ≤ st.bufferLength + buf.length <;>
      by_cases h2 : st.needToWriteHeader <;>
        simp [ptWrite, sinkBytes, h, ht, h2, hfl]

theorem ptWrite_rowParserDone (ps : Option (List Nat)) (st : PTState) (buf : List Nat) :
    (ptWrite ps st buf).1.needToWriteRowParser = false := by
  by_cases h : st.needToWriteRowParser <;>
    by_cases ht : 65536 ≤ st.bufferLength + buf.length <;>
      simp [ptWrite, h, ht]

theorem ptWrites_sinkBytes (ps : Option (List Nat)) :
    ∀ (chunks : List (List Nat)) (st : PTState),
      sinkBytes (ptWrites ps st chunks).2 ++ (ptWrites ps st chunks).1.buffer.flatten =
        st.buffer.flatten ++
          (if st.needToWriteRowParser ∧ chunks ≠ [] then ps.getD [] else []) ++
          chunks.flatten := by
  intro chunks
  induction chunks with
  | nil => intro st; simp [ptWrites, sinkBytes]
  | cons b rest ih =>
    intro st
    have hw := ptWrite_sinkBytes ps st b
    have hr := ih (ptWrite ps st b).1
    rw [ptWrite_rowParserDone] at hr
    simp only [Bool.false_eq_true, false_and, if_false, List.append_nil] at hr
    simp only [ptWrites, sinkBytes_append, List.append_assoc, List.flatten_cons]
    rw [hr]
    have h2 := congrArg (fun l => l ++ rest.flatten) hw
    simp only [List.append_assoc] at h2
    simpa using h2

/-- C9: for every sequence of `write` calls followed by `end`, the total byte
stream delivered to the sink equals the cached leading frame (when one is
present, emitted once before the first chunk) followed by the exact
concatenation of all chunks passed to `write`, in order. -/
theorem ptRun_preserves_bytes (ps : Option (List Nat)) (chunks : List (List Nat)) :
    sinkBytes (ptRun ps chunks) =
      (if chunks = [] then [] else ps.getD []) ++ chunks.flatten := by
  have hw := ptWrites_sinkBytes ps chunks PTState.init
  have he : sinkBytes (ptEnd (ptWrites ps PTState.init chunks).1).2 =
      (ptWrites ps PTState.init chunks).1.buffer.flatten := by
    by_cases h : (ptWrites ps PTState.init chunks).1.needToWriteHeader <;>
      simp [ptEnd, sinkBytes, h]
  simp only [ptRun, sinkBytes_append, he]
  rw [hw]
  by_cases h : chunks = [] <;> simp [h, PTState.init]

theorem ptWrites_bufferLength (ps : Option (List Nat)) :
    ∀ (chunks : List (List Nat)) (st : PTState),
      (ptWrites ps st chunks).1.bufferLength =
        (chunks.map List.length).foldl
          (fun acc len => if 65536 ≤ acc + len then 0 else acc + len) st.bufferLength := by
  intro chunks
  induction chunks with
  | nil => intro st; simp [ptWrites]
  | cons b rest ih =>
    intro st
    have hw := ptWrite_bufferLength ps st b
    simp only [ptWrites, List.map_cons, List.foldl_cons]
    rw [ih, hw]

/-- C10: the pass-through pipe's running byte count is, at every point, a
function of the byte lengths of the chunks passed to `write` alone — the sum
of the lengths appended since the last flush.  The cached leading frame is
pushed into the queue without incrementing the counter (the result does not
depend on `ps` at all), so its bytes never contribute to reaching the
65536-byte flush threshold. -/
theorem ptWrites_counter_excludes_leading_frame (ps : Option (List Nat))
    (chunks : List (List Nat)) :
    (ptWrites ps PTState.init chunks).1.bufferLength =
      counterOracle (chunks.map List.length) := by
  rw [ptWrites_bufferLength, counterOracle, PTState.init]

/-- C8: a `write` call that brings the running byte count to at least the
flush threshold (65536 bytes) concatenates all queued chunks (the leading
frame included on a first call) into one sink write, empties the queue and
resets the counter to zero; a `write` that stays below the threshold delivers
nothing to the sink and only appends the chunk to the queue. -/
theorem ptWrite_flush_spec (ps : Option (List Nat)) (st : PTState) (buf : List Nat) :
    (65536 ≤ st.bufferLength + buf.length →
      (ptWrite ps st buf).1.buffer = [] ∧
      (ptWrite ps st buf).1.bufferLength = 0 ∧
      (ptWrite ps st buf).2 =
        (if st.needToWriteHeader then [SinkEvent.writeHead] else []) ++
          [SinkEvent.writeBody (pushedQueue ps st buf).flatten]) ∧
    (st.bufferLength + buf.length < 65536 →
      (ptWrite ps st buf).2 = [] ∧
      (ptWrite ps st buf).1.buffer = pushedQueue ps st buf ∧
      (ptWrite ps st buf).1.bufferLength = st.bufferLength + buf.length) := by
  constructor <;> intro ht <;>
    by_cases h : st.needToWriteRowParser <;>
      by_cases h2 : st.needToWriteHeader <;>
        simp [ptWrite, pushedQueue, h, h2, ht, Nat.not_le.mpr, Nat.not_le]

/-- Witness for C8 at a concrete call: from a state holding one queued chunk
and 65535 counted bytes, a 1-byte `write` reaches the threshold and flushes
the concatenation in a single sink write, clearing queue and counter. -/
theorem ptWrite_flush_spec_witness :
    (ptWrite none ⟨false, false, [[1]], 65535⟩ [2]).1.buffer = [] ∧
    (ptWrite none ⟨false, false, [[1]], 65535⟩ [2]).1.bufferLength = 0 ∧
    (ptWrite none ⟨false, false, [[1]], 65535⟩ [2]).2 = [SinkEvent.writeBody [1, 2]] := by
  have h := (ptWrite_flush_spec none ⟨false, false, [[1]], 65535⟩ [2]).1 (by decide)
  refine ⟨h.1, h.2.1, ?_⟩
  rw [h.2.2]
  decide

/-- C1 (the code at the cited lines): after the 4096-byte initial capacity is
exceeded, the reallocation path copies the freshly allocated buffer into
itself (`buffer.set(buffer)`) instead of copying the old buffer, so every
previously accumulated byte is lost.  Sending 4096 ones followed by one more
byte yields a buffer whose first 4096 bytes are the unspecified fresh memory
(zeros in the model), not the ones that were appended — the result is not the
concatenation of the inputs. -/
theorem bodyAsBuffer_v0_loses_data :
    bodyAsBuffer_v0 10000000 [List.replicate 4096 1, [2]] =
      .ok (List.replicate 4096 0 ++ [2]) ∧
    (List.replicate 4096 0 ++ [2] : List Nat) ≠ List.replicate 4096 1 ++ [2] := by
  constructor
  · have h1 : accData accInit (List.replicate 4096 1) = ⟨4096, List.replicate 4096 1⟩ := by
      simp [-List.reduceReplicate, accData, accInit, writeAt, List.take_replicate,
        List.drop_replicate]
    have h2 : accData ⟨4096, List.replicate 4096 1⟩ [2] =
        ⟨4097, List.replicate 4096 0 ++ 2 :: List.replicate 4095 0⟩ := by
      have hp : pow2ge 4097 = 8192 := rfl
      simp [-List.reduceReplicate, accData, hp, writeAt, List.take_replicate,
        List.drop_replicate]
    have h3 : List.take 4097 (List.replicate 4096 0 ++ 2 :: List.replicate 4095 0) =
        List.replicate 4096 0 ++ [2] := by
      rw [List.take_append_eq_append_take]
      simp [-List.reduceReplicate, List.take_replicate]
    rw [bodyAsBuffer_v0, accRun]
    rw [if_neg (by simp [-List.reduceReplicate, accInit])]
    rw [h1, accRun]
    rw [if_neg (by simp [-List.reduceReplicate])]
    rw [h2, accRun]
    simp only [Except.map]
    rw [h3]
  · decide

theorem bodyCollect_oversize (maxLen : Nat) (p q : List (List Nat)) :
    ∀ total, total ≤ maxLen → maxLen < total + (p.map List.length).sum →
      bodyCollect maxLen total (p ++ q) = .error "413: Body too large" := by
  induction p with
  | nil => intro total h1 h2; simp at h2; omega
  | cons b rest ih =>
    intro total h1 h2
    simp only [List.cons_append, bodyCollect]
    by_cases hb : maxLen < total + b.length
    · rw [if_pos hb]
    · rw [if_neg hb]
      simp only [List.append_eq]
      rw [ih (total + b.length) (by omega) (by simp at h2 ⊢; omega)]
      rfl

/-- C6: whenever the cumulative size of the appended chunks exceeds the
configured maximum, the accumulation fails with `413: Body too large` as soon
as the running total first exceeds the maximum — whatever chunks follow the
exceeding prefix, the outcome is the rejection, never a successful
completion or a truncated buffer. -/
theorem bodyAsBuffer_rejects_oversize (maxLen : Nat) (p q : List (List Nat))
    (h : maxLen < (p.map List.length).sum) :
    bodyAsBuffer maxLen (p ++ q) = .error "413: Body too large" := by
  rw [bodyAsBuffer, bodyCollect_oversize maxLen p q 0 (Nat.zero_le maxLen) (by omega)]
  rfl

/-- Witness for C6 at the spec's example: `max = 100`, two chunks of 60 bytes
each. -/
theorem bodyAsBuffer_rejects_oversize_witness :
    100 < (([List.replicate 60 7, List.replicate 60 7].map List.length).sum) ∧
    bodyAsBuffer 100 [List.replicate 60 7, List.replicate 60 7] =
      .error "413: Body too large" := by
  refine ⟨by decide, ?_⟩
  have h := bodyAsBuffer_rejects_oversize 100 [List.replicate 60 7, List.replicate 60 7] []
    (by decide)
  rwa [List.append_nil] at h

/-- Counterexample for C4.  In the part_000 variant the numeric target `0` is
falsy, so `migrationTarget || migrations.length-1` resolves it to `N-1 = 1`
instead of `0`; and in the latest variant a non-empty string matching no step
name is not defaulted to `N-1` — it is passed through unresolved. -/
theorem resolveTargetIndex_counterexample :
    resolveTargetIndex_v0 migsAB (.num 0) = .idx 1 ∧
    (Resolved.idx 1 : Resolved) ≠ .idx 0 ∧
    resolveTargetIndex migsAB (.str "zzz") = .str "zzz" ∧
    (Resolved.str "zzz" : Resolved) ≠ .idx 1 := by
  refine ⟨by decide, by decide, by decide, by decide⟩

/-- C4 as amended: a target equal to a step name resolves to that step's
(first) position in both variants; a numeric target resolves to itself in the
latest variant (0 and -1 included), while the part_000 variant resolves the
number 0 to `N-1`; an absent target and the empty string resolve to `N-1`;
a non-empty string matching no step name resolves to the string itself, not
to `N-1`. -/
theorem resolveTargetIndex_amended (migs : List MStep) :
    (∀ s i, migs.findIdx? (fun m => m.name == s) = some i →
      resolveTargetIndex migs (.str s) = .idx i ∧
        resolveTargetIndex_v0 migs (.str s) = .idx i) ∧
    (∀ n : Int, resolveTargetIndex migs (.num n) = .idx n) ∧
    (∀ n : Int, n ≠ 0 → resolveTargetIndex_v0 migs (.num n) = .idx n) ∧
    resolveTargetIndex_v0 migs (.num 0) = .idx ((migs.length : Int) - 1) ∧
    resolveTargetIndex migs .undef = .idx ((migs.length : Int) - 1) ∧
    resolveTargetIndex_v0 migs .undef = .idx ((migs.length : Int) - 1) ∧
    (∀ s, migs.findIdx? (fun m => m.name == s) = none → s ≠ "" →
      resolveTargetIndex migs (.str s) = .str s ∧
        resolveTargetIndex_v0 migs (.str s) = .str s) ∧
    (migs.findIdx? (fun m => m.name == "") = none →
      resolveTargetIndex migs (.str "") = .idx ((migs.length : Int) - 1) ∧
        resolveTargetIndex_v0 migs (.str "") = .idx ((migs.length : Int) - 1)) := by
  refine ⟨?_, ?_, ?_, ?_, ?_, ?_, ?_, ?_⟩
  · intro s i h
    constructor <;> simp [resolveTargetIndex, resolveTargetIndex_v0, findMigrationIndex, h]
  · intro n
    by_cases hn : n = 0
    · subst hn; simp [resolveTargetIndex, findMigrationIndex]
    · simp [resolveTargetIndex, findMigrationIndex, hn]
  · intro n hn
    simp [resolveTargetIndex_v0, findMigrationIndex, hn]
  · simp [resolveTargetIndex_v0, findMigrationIndex]
  · simp [resolveTargetIndex, findMigrationIndex]
  · simp [resolveTargetIndex_v0, findMigrationIndex]
  · intro s h hs
    constructor <;> simp [resolveTargetIndex, resolveTargetIndex_v0, findMigrationIndex, h, hs]
  · intro h
    constructor <;> simp [resolveTargetIndex, resolveTargetIndex_v0, findMigrationIndex, h]

/-- Witness for C4's amended statement at a concrete migration list. -/
theorem resolveTargetIndex_amended_witness :
    resolveTargetIndex migsAB (.str "b") = .idx 1 ∧
    resolveTargetIndex migsAB (.num (-1)) = .idx (-1) ∧
    resolveTargetIndex_v0 migsAB (.num 0) = .idx 1 ∧
    resolveTargetIndex migsAB .undef = .idx 1 ∧
    resolveTargetIndex migsAB (.str "zzz") = .str "zzz" := by
  have h := resolveTargetIndex_amended migsAB
  refine ⟨(h.1 "b" 1 (by decide)).1, h.2.1 (-1), ?_, ?_, (h.2.2.2.2.2.2.1 "zzz" (by decide) (by decide)).1⟩
  · have := h.2.2.2.1
    simpa using this
  · have := h.2.2.2.2.1
    simpa using this

/-- C3 (the code at the cited line): the ledger `UPDATE` carries no `WHERE`
clause, so committing a migration run for `dbA` rewrites the ledger row of
every other target as well — here `dbB` moves from position 5 to `dbA`'s new
position 1 with `dbA`'s new step name. -/
theorem migrate_ledger_update_clobbers_other_targets :
    (migrate noFault (fun _ s => s) migsAB "dbA" (.num 1) 0 connTwoTargets).1 = .ok () ∧
    (migrate noFault (fun _ s => s) migsAB "dbA" (.num 1) 0 connTwoTargets).2.durable.ledger =
      [⟨"dbA", 1, some "b"⟩, ⟨"dbB", 1, some "b"⟩] := by
  exact ⟨rfl, rfl⟩

theorem qm_bind_ok {σ α β : Type} {m : QM σ α} {f : α → QM σ β} {n : Nat} {c : Conn σ}
    {a : α} {n' : Nat} {c' : Conn σ} (h : m n c = (.ok a, n', c')) :
    (m >>= f) n c = f a n' c' := by
  have hd : (m >>= f) n c =
      (match m n c with
        | (.ok a, n', c') => f a n' c'
        | (.error e, n', c') => (.error e, n', c')) := rfl
  rw [hd, h]

theorem qm_bind_error {σ α β : Type} {m : QM σ α} {f : α → QM σ β} {n : Nat} {c : Conn σ}
    {e : String} {n' : Nat} {c' : Conn σ} (h : m n c = (.error e, n', c')) :
    (m >>= f) n c = (.error e, n', c') := by
  have hd : (m >>= f) n c =
      (match m n c with
        | (.ok a, n', c') => f a n' c'
        | (.error e, n', c') => (.error e, n', c')) := rfl
  rw [hd, h]

theorem qm_pure_apply {σ α : Type} (a : α) (n : Nat) (c : Conn σ) :
    (pure a : QM σ α) n c = (.ok a, n, c) := rfl

theorem setCur_durable {σ : Type} (c : Conn σ) (s : DBState σ) (h : c.txn.isSome = true) :
    (setCur c s).durable = c.durable ∧ (setCur c s).txn.isSome = true := by
  unfold setCur
  cases hc : c.txn with
  | some t => exact ⟨rfl, rfl⟩
  | none => rw [hc] at h; simp at h

theorem pd_qquery {σ α : Type} (fault : Nat → Option String)
    (g : DBState σ → Except String (α × DBState σ × List MEvent)) :
    PreservesDurable (qquery fault g) := by
  intro n c h
  unfold qquery
  cases hf : fault n with
  | some e => exact ⟨rfl, h⟩
  | none =>
    cases hg : g (curState c) with
    | error e => exact ⟨rfl, h⟩
    | ok x =>
      obtain ⟨a, s, evs⟩ := x
      have hs := setCur_durable c s h
      exact ⟨hs.1, hs.2⟩

theorem pd_pure {σ α : Type} (a : α) : PreservesDurable (pure a : QM σ α) :=
  fun _ _ h => ⟨rfl, h⟩

theorem pd_qRaise {σ α : Type} (e : String) : PreservesDurable (qRaise e : QM σ α) :=
  fun _ _ h => ⟨rfl, h⟩

theorem pd_bind {σ α β : Type} {m : QM σ α} {f : α → QM σ β}
    (hm : PreservesDurable m) (hf : ∀ a, PreservesDurable (f a)) :
    PreservesDurable (m >>= f) := by
  intro n c h
  rcases hx : m n c with ⟨r, n', c'⟩
  have hmc := hm n c h
  rw [hx] at hmc
  cases r with
  | ok a =>
    rw [qm_bind_ok hx]
    have hfc := hf a n' c' hmc.2
    exact ⟨hfc.1.trans hmc.1, hfc.2⟩
  | error e =>
    rw [qm_bind_error hx]
    exact hmc

theorem pd_runDownSteps {σ : Type} (fault : Nat → Option String) (runSQL : String → σ → σ)
    (db : String) (migs : List MStep) :
    ∀ idxs : List Int, PreservesDurable (runDownSteps fault runSQL db migs idxs) := by
  intro idxs
  induction idxs with
  | nil => exact pd_pure ()
  | cons i rest ih =>
    show PreservesDurable (runDownSteps fault runSQL db migs (i :: rest))
    unfold runDownSteps
    cases getStep migs i with
    | error e => exact pd_qRaise e
    | ok m =>
      exact pd_bind (pd_qquery _ _) (fun _ => pd_bind (pd_qquery _ _) (fun _ => ih))

theorem pd_runUpSteps {σ : Type} (fault : Nat → Option String) (runSQL : String → σ → σ)
    (db : String) (migs : List MStep) :
    ∀ idxs : List Int, PreservesDurable (runUpSteps fault runSQL db migs idxs) := by
  intro idxs
  induction idxs with
  | nil => exact pd_pure ()
  | cons i rest ih =>
    show PreservesDurable (runUpSteps fault runSQL db migs (i :: rest))
    unfold runUpSteps
    cases getStep migs i with
    | error e => exact pd_qRaise e
    | ok m =>
      exact pd_bind (pd_qquery _ _) (fun _ => pd_bind (pd_qquery _ _) (fun _ => ih))

theorem pd_qCreateMigrationTable {σ : Type} (fault : Nat → Option String) :
    PreservesDurable (qCreateMigrationTable fault : QM σ Unit) :=
  pd_qquery fault _

theorem pd_qCreateMigrationLog {σ : Type} (fault : Nat → Option String) :
    PreservesDurable (qCreateMigrationLog fault : QM σ Unit) :=
  pd_qquery fault _

theorem pd_qSelectStatus {σ : Type} (fault : Nat → Option String) (db : String) :
    PreservesDurable (qSelectStatus fault db : QM σ (Option LedgerRow)) :=
  pd_qquery fault _

theorem pd_qInsertStatus {σ : Type} (fault : Nat → Option String) (db : String) :
    PreservesDurable (qInsertStatus fault db : QM σ LedgerRow) :=
  pd_qquery fault _

theorem pd_qUpdateLedger {σ : Type} (fault : Nat → Option String) (migs : List MStep)
    (tRes : Resolved) :
    PreservesDurable (qUpdateLedger fault migs tRes : QM σ Unit) :=
  pd_qquery fault _

theorem pd_migrateMid {σ : Type} (fault : Nat → Option String) (runSQL : String → σ → σ)
    (migs : List MStep) (db : String) (tRes : Resolved) :
    PreservesDurable (migrateMid fault runSQL migs db tRes) := by
  unfold migrateMid
  refine pd_bind (pd_qCreateMigrationTable _) (fun _ => ?_)
  refine pd_bind (pd_qCreateMigrationLog _) (fun _ => ?_)
  refine pd_bind (pd_qSelectStatus _ _) (fun status => ?_)
  have hrest : ∀ row : LedgerRow,
      PreservesDurable
        (runDownSteps fault runSQL db migs (downIdxs row.latest_index tRes) >>= fun _ =>
          runUpSteps fault runSQL db migs (upIdxs row.latest_index tRes) >>= fun _ =>
            qUpdateLedger fault migs tRes) := fun row =>
    pd_bind (pd_runDownSteps _ _ _ _ _) (fun _ =>
      pd_bind (pd_runUpSteps _ _ _ _ _) (fun _ => pd_qUpdateLedger _ _ _))
  cases status with
  | some r => exact pd_bind (pd_pure r) hrest
  | none => exact pd_bind (pd_qInsertStatus _ _) hrest

theorem migrateBody_error_durable {σ : Type} (fault : Nat → Option String)
    (runSQL : String → σ → σ) (migs : List MStep) (db : String) (tRes : Resolved)
    (n : Nat) (c : Conn σ) (e : String) (n' : Nat) (c' : Conn σ)
    (h : migrateBody fault runSQL migs db tRes n c = (.error e, n', c')) :
    c'.durable = c.durable := by
  unfold migrateBody at h
  cases hf : fault n with
  | some e0 =>
    have hb : qBegin fault n c = ((.error e0 : Except String Unit), n + 1, c) := by
      unfold qBegin; rw [hf]
    rw [qm_bind_error hb] at h
    cases h
    rfl
  | none =>
    have hb : qBegin fault n c =
        ((.ok () : Except String Unit), n + 1, { c with txn := some c.durable }) := by
      unfold qBegin; rw [hf]
    rw [qm_bind_ok hb] at h
    rcases hm : migrateMid fault runSQL migs db tRes (n + 1) { c with txn := some c.durable }
      with ⟨r1, n1, c1⟩
    have hpd := pd_migrateMid fault runSQL migs db tRes (n + 1)
      { c with txn := some c.durable } rfl
    rw [hm] at hpd
    cases r1 with
    | error e1 =>
      rw [qm_bind_error hm] at h
      cases h
      exact hpd.1
    | ok _ =>
      rw [qm_bind_ok hm] at h
      unfold qCommit at h
      cases hf1 : fault n1 with
      | some e2 =>
        rw [hf1] at h
        cases h
        exact hpd.1
      | none =>
        rw [hf1] at h
        cases h

/-- C2: if any query inside the migration transaction fails, `migrate`
issues a `ROLLBACK` (the returned connection has no open transaction) and
re-throws the original error (the error of the transaction body, unchanged),
and the durable state afterwards equals the pre-call state — so the ledger
still reports the pre-call position and no audit record written inside the
failed transaction is durably visible. -/
theorem migrate_rollback_on_failure {σ : Type} (fault : Nat → Option String)
    (runSQL : String → σ → σ) (migs : List MStep) (db : String) (target : MTarget)
    (n₀ : Nat) (c : Conn σ) (e : String)
    (h : (migrate fault runSQL migs db target n₀ c).1 = .error e) :
    (migrate fault runSQL migs db target n₀ c).2.durable = c.durable ∧
    (migrate fault runSQL migs db target n₀ c).2.txn = none ∧
    (migrateBody fault runSQL migs db (resolveTargetIndex migs target) n₀ c).1 =
      .error e := by
  unfold migrate migrateResolved at h ⊢
  rcases hb : migrateBody fault runSQL migs db (resolveTargetIndex migs target) n₀ c
    with ⟨r, n', c'⟩
  rw [hb] at h
  cases r with
  | ok _ => exact Except.noConfusion h
  | error e' =>
    have he : (Except.error e' : Except String Unit) = Except.error e := h
    injection he with he2
    subst he2
    refine ⟨?_, ?_, rfl⟩
    · show (rollbackConn c').durable = c.durable
      have := migrateBody_error_durable fault runSQL migs db
        (resolveTargetIndex migs target) n₀ c e' n' c' hb
      simpa [rollbackConn] using this
    · show (rollbackConn c').txn = none
      rfl

/-- Witness for C2: a run whose 7th query (the ledger `UPDATE` of a one-step
forward migration) is made to fail; the call errors with that error, the
transaction is rolled back, and the durable state is the pre-call one. -/
theorem migrate_rollback_on_failure_witness :
    (migrate fault6 (fun _ s => s) migsAB "dbA" (.num 1) 0 connTwoTargets).1 =
      .error "boom" ∧
    (migrate fault6 (fun _ s => s) migsAB "dbA" (.num 1) 0 connTwoTargets).2.durable =
      connTwoTargets.durable ∧
    (migrate fault6 (fun _ s => s) migsAB "dbA" (.num 1) 0 connTwoTargets).2.txn = none := by
  have h := migrate_rollback_on_failure fault6 (fun _ s => s) migsAB "dbA" (.num 1) 0
    connTwoTargets "boom" rfl
  exact ⟨rfl, h.1, h.2.1⟩

theorem qm_bind_apply {σ α β : Type} (m : QM σ α) (f : α → QM σ β) (n : Nat) (c : Conn σ) :
    (m >>= f) n c =
      (match m n c with
        | (.ok a, n', c') => f a n' c'
        | (.error e, n', c') => (.error e, n', c')) := rfl

theorem downIdxs_valid (migs : List MStep) (cI t : Int)
    (ht : -1 ≤ t) (hc : cI ≤ (migs.length : Int) - 1) :
    ∀ i ∈ downIdxs cI (.idx t), 0 ≤ i ∧ i.toNat < migs.length := by
  intro i hi
  simp only [downIdxs, List.mem_map, List.mem_range] at hi
  obtain ⟨k, hk, rfl⟩ := hi
  omega

theorem upIdxs_valid (migs : List MStep) (cI t : Int)
    (hc : -1 ≤ cI) (ht : t ≤ (migs.length : Int) - 1) :
    ∀ i ∈ upIdxs cI (.idx t), 0 ≤ i ∧ i.toNat < migs.length := by
  intro i hi
  simp only [upIdxs, List.mem_map, List.mem_range] at hi
  obtain ⟨k, hk, rfl⟩ := hi
  omega

theorem runDownSteps_noFault {σ : Type} (runSQL : String → σ → σ) (db : String)
    (migs : List MStep) :
    ∀ (idxs : List Int), (∀ i ∈ idxs, 0 ≤ i ∧ i.toNat < migs.length) →
      ∀ (n : Nat) (d s : DBState σ) (tr : List MEvent),
        ∃ (n' : Nat) (s' : DBState σ),
          runDownSteps noFault runSQL db migs idxs n ⟨d, some s, tr⟩ =
            (.ok (), n', ⟨d, some s', tr ++ downTrace db migs idxs⟩) := by
  intro idxs
  induction idxs with
  | nil =>
    intro _ n d s tr
    refine ⟨n, s, ?_⟩
    simp [runDownSteps, downTrace, qm_pure_apply]
  | cons i rest ih =>
    intro hval n d s tr
    obtain ⟨h0, hlen⟩ := hval i (by simp)
    have hm : getStep migs i = .ok (migs.get ⟨i.toNat, hlen⟩) := by
      unfold getStep
      exact dif_pos ⟨h0, hlen⟩
    have key : runDownSteps noFault runSQL db migs (i :: rest) n ⟨d, some s, tr⟩ =
        runDownSteps noFault runSQL db migs rest (n + 2)
          ⟨d, some { s with
              schema := runSQL (migs.get ⟨i.toNat, hlen⟩).down s.schema,
              audit := s.audit ++ [⟨db, (migs.get ⟨i.toNat, hlen⟩).name, "down",
                (migs.get ⟨i.toNat, hlen⟩).down, i⟩] },
            (tr ++ [MEvent.exec "down" i (migs.get ⟨i.toNat, hlen⟩).down]) ++
              [MEvent.auditIns ⟨db, (migs.get ⟨i.toNat, hlen⟩).name, "down",
                (migs.get ⟨i.toNat, hlen⟩).down, i⟩]⟩ := by
      conv_lhs => unfold runDownSteps
      rw [hm]
      rfl
    obtain ⟨n', s', hrest⟩ := ih (fun j hj => hval j (List.mem_cons_of_mem i hj)) (n + 2) d
      { s with
        schema := runSQL (migs.get ⟨i.toNat, hlen⟩).down s.schema,
        audit := s.audit ++ [⟨db, (migs.get ⟨i.toNat, hlen⟩).name, "down",
          (migs.get ⟨i.toNat, hlen⟩).down, i⟩] }
      ((tr ++ [MEvent.exec "down" i (migs.get ⟨i.toNat, hlen⟩).down]) ++
        [MEvent.auditIns ⟨db, (migs.get ⟨i.toNat, hlen⟩).name, "down",
          (migs.get ⟨i.toNat, hlen⟩).down, i⟩])
    refine ⟨n', s', ?_⟩
    rw [key, hrest]
    have hdt : downTrace db migs (i :: rest) =
        MEvent.exec "down" i (migs.get ⟨i.toNat, hlen⟩).down ::
          MEvent.auditIns ⟨db, (migs.get ⟨i.toNat, hlen⟩).name, "down",
            (migs.get ⟨i.toNat, hlen⟩).down, i⟩ :: downTrace db migs rest := by
      simp only [downTrace]
      rw [hm]
    rw [hdt]
    simp [List.append_assoc]

theorem runUpSteps_noFault {σ : Type} (runSQL : String → σ → σ) (db : String)
    (migs : List MStep) :
    ∀ (idxs : List Int), (∀ i ∈ idxs, 0 ≤ i ∧ i.toNat < migs.length) →
      ∀ (n : Nat) (d s : DBState σ) (tr : List MEvent),
        ∃ (n' : Nat) (s' : DBState σ),
          runUpSteps noFault runSQL db migs idxs n ⟨d, some s, tr⟩ =
            (.ok (), n', ⟨d, some s', tr ++ upTrace db migs idxs⟩) := by
  intro idxs
  induction idxs with
  | nil =>
    intro _ n d s tr
    refine ⟨n, s, ?_⟩
    simp [runUpSteps, upTrace, qm_pure_apply]
  | cons i rest ih =>
    intro hval n d s tr
    obtain ⟨h0, hlen⟩ := hval i (by simp)
    have hm : getStep migs i = .ok (migs.get ⟨i.toNat, hlen⟩) := by
      unfold getStep
      exact dif_pos ⟨h0, hlen⟩
    have key : runUpSteps noFault runSQL db migs (i :: rest) n ⟨d, some s, tr⟩ =
        runUpSteps noFault runSQL db migs rest (n + 2)
          ⟨d, some { s with
              schema := runSQL (migs.get ⟨i.toNat, hlen⟩).up s.schema,
              audit := s.audit ++ [⟨db, (migs.get ⟨i.toNat, hlen⟩).name, "up",
                (migs.get ⟨i.toNat, hlen⟩).up, i⟩] },
            (tr ++ [MEvent.exec "up" i (migs.get ⟨i.toNat, hlen⟩).up]) ++
              [MEvent.auditIns ⟨db, (migs.get ⟨i.toNat, hlen⟩).name, "up",
                (migs.get ⟨i.toNat, hlen⟩).up, i⟩]⟩ := by
      conv_lhs => unfold runUpSteps
      rw [hm]
      rfl
    obtain ⟨n', s', hrest⟩ := ih (fun j hj => hval j (List.mem_cons_of_mem i hj)) (n + 2) d
      { s with
        schema := runSQL (migs.get ⟨i.toNat, hlen⟩).up s.schema,
        audit := s.audit ++ [⟨db, (migs.get ⟨i.toNat, hlen⟩).name, "up",
          (migs.get ⟨i.toNat, hlen⟩).up, i⟩] }
      ((tr ++ [MEvent.exec "up" i (migs.get ⟨i.toNat, hlen⟩).up]) ++
        [MEvent.auditIns ⟨db, (migs.get ⟨i.toNat, hlen⟩).name, "up",
          (migs.get ⟨i.toNat, hlen⟩).up, i⟩])
    refine ⟨n', s', ?_⟩
    rw [key, hrest]
    have hdt : upTrace db migs (i :: rest) =
        MEvent.exec "up" i (migs.get ⟨i.toNat, hlen⟩).up ::
          MEvent.auditIns ⟨db, (migs.get ⟨i.toNat, hlen⟩).name, "up",
            (migs.get ⟨i.toNat, hlen⟩).up, i⟩ :: upTrace db migs rest := by
      simp only [upTrace]
      rw [hm]
    rw [hdt]
    simp [List.append_assoc]

theorem qm_bind_eq {σ α β : Type} {m : QM σ α} {f : α → QM σ β} {n : Nat} {c : Conn σ}
    {a : α} {n' : Nat} {c' : Conn σ} {r : Except String β × Nat × Conn σ}
    (h1 : m n c = (.ok a, n', c')) (h2 : f a n' c' = r) : (m >>= f) n c = r := by
  rw [qm_bind_ok h1]
  exact h2

theorem migrateMid_noFault {σ : Type} (runSQL : String → σ → σ) (migs : List MStep)
    (db : String) (t : Int) (row : LedgerRow) (n : Nat) (d s : DBState σ)
    (tr : List MEvent)
    (hrow : s.ledger.find? (fun r => r.db_name == db) = some row)
    (hdown : ∀ i ∈ downIdxs row.latest_index (.idx t), 0 ≤ i ∧ i.toNat < migs.length)
    (hup : ∀ i ∈ upIdxs row.latest_index (.idx t), 0 ≤ i ∧ i.toNat < migs.length) :
    ∃ (n' : Nat) (s' : DBState σ),
      migrateMid noFault runSQL migs db (.idx t) n ⟨d, some s, tr⟩ =
        (.ok (), n', ⟨d, some s',
          (tr ++ downTrace db migs (downIdxs row.latest_index (.idx t))) ++
            upTrace db migs (upIdxs row.latest_index (.idx t))⟩) := by
  obtain ⟨nd, sd, hd⟩ := runDownSteps_noFault runSQL db migs
    (downIdxs row.latest_index (.idx t)) hdown (n + 3) d
    { s with migrationTable := true, migrationLogTable := true } (((tr ++ []) ++ []) ++ [])
  obtain ⟨nu, su, hu⟩ := runUpSteps_noFault runSQL db migs
    (upIdxs row.latest_index (.idx t)) hup nd d sd
    ((((tr ++ []) ++ []) ++ []) ++ downTrace db migs (downIdxs row.latest_index (.idx t)))
  have hsel : qSelectStatus noFault db (n + 2)
      (⟨d, some { s with migrationTable := true, migrationLogTable := true },
        (tr ++ []) ++ []⟩ : Conn σ) =
      (.ok (s.ledger.find? (fun r => r.db_name == db)), n + 3,
        ⟨d, some { s with migrationTable := true, migrationLogTable := true },
          ((tr ++ []) ++ []) ++ []⟩) := rfl
  rw [hrow] at hsel
  refine ⟨nu + 1, { su with ledger := ledgerSet migs t su.ledger }, ?_⟩
  have hchain : migrateMid noFault runSQL migs db (.idx t) n (⟨d, some s, tr⟩ : Conn σ) =
      (.ok (), nu + 1, ⟨d, some { su with ledger := ledgerSet migs t su.ledger },
        ((((((tr ++ []) ++ []) ++ []) ++
          downTrace db migs (downIdxs row.latest_index (.idx t))) ++
          upTrace db migs (upIdxs row.latest_index (.idx t))) ++ [])⟩) :=
    qm_bind_eq rfl (qm_bind_eq rfl (qm_bind_eq hsel (qm_bind_eq rfl
      (qm_bind_eq hd (qm_bind_eq hu rfl)))))
  rw [hchain]
  simp [List.append_assoc]

/-- C5: for a migrate run with resolved target `t` and current ledger index
`cI` (both legal positions), executed with no query failures: if `cI > t`
exactly the `down` changes of steps `cI, cI-1, …, t+1` run in strict
descending index order, each immediately followed by its `down` audit-log
insert; if `cI < t` exactly the `up` changes of steps `cI+1, …, t` run in
strict ascending order, each followed by its `up` audit-log insert; if
`cI = t` no step runs — and in every case the call succeeds. -/
theorem migrateResolved_step_order {σ : Type} (runSQL : String → σ → σ)
    (migs : List MStep) (db : String) (t cI : Int) (c : Conn σ) (row : LedgerRow)
    (hrow : c.durable.ledger.find? (fun r => r.db_name == db) = some row)
    (hcI : row.latest_index = cI)
    (ht1 : -1 ≤ t) (ht2 : t ≤ (migs.length : Int) - 1)
    (hc1 : -1 ≤ cI) (hc2 : cI ≤ (migs.length : Int) - 1) :
    (migrateResolved noFault runSQL migs db (.idx t) 0 c).1 = .ok () ∧
    (migrateResolved noFault runSQL migs db (.idx t) 0 c).2.trace =
      (c.trace ++ downTrace db migs (downIdxs cI (.idx t))) ++
        upTrace db migs (upIdxs cI (.idx t)) := by
  subst hcI
  obtain ⟨n', s', hmid⟩ := migrateMid_noFault runSQL migs db t row 1 c.durable c.durable
    c.trace hrow
    (downIdxs_valid migs row.latest_index t ht1 hc2)
    (upIdxs_valid migs row.latest_index t hc1 ht2)
  have hbody : migrateBody noFault runSQL migs db (.idx t) 0 c =
      (.ok (), n' + 1, ⟨s', none,
        (c.trace ++ downTrace db migs (downIdxs row.latest_index (.idx t))) ++
          upTrace db migs (upIdxs row.latest_index (.idx t))⟩) :=
    qm_bind_eq rfl (qm_bind_eq hmid rfl)
  have hres : migrateResolved noFault runSQL migs db (.idx t) 0 c =
      (.ok (), ⟨s', none,
        (c.trace ++ downTrace db migs (downIdxs row.latest_index (.idx t))) ++
          upTrace db migs (upIdxs row.latest_index (.idx t))⟩) := by
    unfold migrateResolved
    rw [hbody]
  rw [hres]
  exact ⟨rfl, rfl⟩

/-- Witness for C5 at a concrete forward run: two steps, fresh ledger at
`-1`, target `1` — both `up` changes run in ascending order, each followed by
its audit record, and the call succeeds. -/
theorem migrateResolved_step_order_witness :
    (migrateResolved noFault (fun _ (s : Unit) => s) migsAB "d" (.idx 1) 0 connFresh).1 =
      .ok () ∧
    (migrateResolved noFault (fun _ (s : Unit) => s) migsAB "d" (.idx 1) 0 connFresh).2.trace =
      [MEvent.exec "up" 0 "ua", MEvent.auditIns ⟨"d", "a", "up", "ua", 0⟩,
        MEvent.exec "up" 1 "ub", MEvent.auditIns ⟨"d", "b", "up", "ub", 1⟩] := by
  have h := migrateResolved_step_order (fun _ (s : Unit) => s) migsAB "d" 1 (-1) connFresh
    ⟨"d", -1, none⟩ rfl rfl (by decide) (by decide) (by decide) (by decide)
  refine ⟨h.1, ?_⟩
  rw [h.2]
  rfl
